import Mathlib

/-
Verification development for the k8sutil watching store (watch.go).

The engine keeps a local mirror of Kubernetes resources:
  store : map[reflect.Type]map[string]k8s.Resource
A coordinator goroutine (`(*WatchingStore).run`) merges the initial
listings of all registered watch sessions (catch-up phase), then applies
incremental watch events (steady-state phase), notifying a callback on
mutations.

Shallow embedding conventions:
- Go maps are modelled as association lists with unique keys; map reads
  return `Option`, map writes replace the entry for an existing key or
  append a new one.
- `reflect.Type` keys (the dynamic type of a resource) are modelled by a
  `Kind` tag carried on each resource; `GetMetadata().GetUid()` is a
  string field.  The metadata's ResourceVersion is a proto2-generated
  `*string`: it is modelled as an allocation id plus the pointed-to
  value, so that the direct field comparison (pointer equality) and the
  `GetResourceVersion()` getter (value, empty string for nil) can both
  be expressed.
- Go runtime panics (method call on a nil interface value, write to a nil
  map, reflect kind violations) are modelled with `Option`/dedicated
  result constructors: `none` / a panic constructor marks the panic.
- The coordinator's blocking select loop is modelled as a state machine
  driven by a schedule of incoming channel messages.
-/

namespace K8sutil

/-! ### Association-list maps (model of Go maps) -/

def lookupA {α β : Type} [DecidableEq α] : List (α × β) → α → Option β
  | [], _ => none
  | (k', v) :: t, k => if k' = k then some v else lookupA t k

def insertA {α β : Type} [DecidableEq α] : List (α × β) → α → β → List (α × β)
  | [], k, v => [(k, v)]
  | (k', v') :: t, k, v => if k' = k then (k, v) :: t else (k', v') :: insertA t k v

def eraseA {α β : Type} [DecidableEq α] : List (α × β) → α → List (α × β)
  | [], _ => []
  | (k', v') :: t, k => if k' = k then t else (k', v') :: eraseA t k

/-- Go maps have unique keys; an association list models a map only when
its keys are pairwise distinct. -/
def NodupA {α β : Type} (l : List (α × β)) : Prop :=
  l.Pairwise (fun p q => p.1 ≠ q.1)

instance {α β : Type} [DecidableEq α] (l : List (α × β)) : Decidable (NodupA l) :=
  inferInstanceAs (Decidable (l.Pairwise _))

/-! ### Resources and the store

A `Resource` models a decoded `k8s.Resource`: `kind` stands for the
dynamic type `reflect.TypeOf(r)`, `uid` for `GetMetadata().GetUid()`,
`resourceVersion` for the metadata's ResourceVersion field, and
`payload` for the rest of the (opaque) resource body. -/

/-- The dynamic resource type used as the outer store key (`reflect.Type`). -/
abbrev Kind := String

structure Resource where
  kind : Kind
  uid : String
  /-- The metadata ResourceVersion: a proto2 `*string`, modelled as the
  allocation id of the string plus the pointed-to value (`none` is the
  nil pointer).  Go `==`/`!=` on the field compares the pointers; two
  separately decoded resources carry distinct allocations even when the
  version tokens agree. -/
  resourceVersion : Option (Nat × String)
  payload : String
deriving DecidableEq, Repr

/-- `GetMetadata().GetResourceVersion()`: the generated getter
dereferences the pointer and returns the empty string for nil. -/
def getResourceVersion (r : Resource) : String :=
  match r.resourceVersion with
  | none => ""
  | some p => p.2

/-- `map[string]k8s.Resource` — one kind's bucket, keyed by uid. -/
abbrev UidMap := List (String × Resource)

/-- `map[reflect.Type]map[string]k8s.Resource` — the mirror store (watch.go:21). -/
abbrev StoreM := List (Kind × UidMap)

/-- Two-level lookup `store[rt][uid]`; reading a missing inner map in Go
yields the zero value, so a missing bucket reads as a missing entry. -/
def lookup2 (store : StoreM) (rt : Kind) (uid : String) : Option Resource :=
  match lookupA store rt with
  | none => none
  | some bucket => lookupA bucket uid

/-- `(mapStore).List` (watch.go:30-37): build a fresh slice holding the
records of the requested kind; for an unknown kind `store[rt]` is the nil
map and ranging over it yields nothing. -/
def mapStoreList (store : StoreM) (rt : Kind) : List Resource :=
  ((lookupA store rt).getD []).map Prod.snd

/-! ### Steady-state event handling (watch.go:132-162)

The event strings of github.com/ericchiang/k8s. -/

def EventAdded : String := "ADDED"
def EventModified : String := "MODIFIED"
def EventDeleted : String := "DELETED"

/-- `watchEvent` (watch.go:201-204). -/
structure watchEvent where
  eventType : String
  resource : Resource
deriving DecidableEq, Repr

/-- One iteration of the steady-state event switch (watch.go:139-154).
Returns `some (store', notified)` on normal completion and `none` when
the Go code panics:
- `Added`/`Modified` with the uid absent from the store: the map lookup
  `oldResource, _ := w.store[rt][uid]` produces the nil `k8s.Resource`
  interface value, and `oldResource.GetMetadata()` (watch.go:148) is a
  method call on a nil interface — a runtime panic.  (The catch-up path
  guards this case with `existed` at watch.go:102; the steady-state path
  does not.)
- any event type other than the three known ones: explicit
  `panic(errors.Errorf(...))` (watch.go:153). -/
def handleEvent (store : StoreM) (ev : watchEvent) : Option (StoreM × Bool) :=
  let rt := ev.resource.kind
  let uid := ev.resource.uid
  if ev.eventType = EventDeleted then
    -- `delete` on a missing bucket (nil map) is a no-op
    match lookupA store rt with
    | none => some (store, false)
    | some bucket =>
      let existed := (lookupA bucket uid).isSome
      some (insertA store rt (eraseA bucket uid), existed)
  else if ev.eventType = EventAdded ∨ ev.eventType = EventModified then
    match lookupA store rt with
    | none => none
    | some bucket =>
      match lookupA bucket uid with
      | none => none
      | some old =>
        -- watch.go:148 reads the ResourceVersion *string fields directly
        -- (`oldResource.GetMetadata().ResourceVersion != ...`), so unlike
        -- the catch-up comparison at watch.go:102 this compares POINTERS:
        -- equal only when both are nil or both are the same allocation
        if old.resourceVersion ≠ ev.resource.resourceVersion then
          some (insertA store rt (insertA bucket uid ev.resource), true)
        else
          some (store, false)
  else
    none

/-! ### The coordinator round (`(*WatchingStore).run`, watch.go:65-163)

`run` launches one session goroutine per registered watch and then sits
in blocking select loops.  We model it as a state machine driven by a
schedule of incoming channel messages: the session goroutines are the
environment producing `listing` (listCh), `event` (watchCh) and `exit`
(exitCh) messages. -/

inductive Msg where
  | listing (items : List Resource)
  | event (ev : watchEvent)
  | exit
deriving DecidableEq, Repr

/-- The control position of the coordinator:
- `catchup`: inside the first select loop (watch.go:93-119);
- `steady`: inside the second select loop (watch.go:132-162);
- `returned`: `run` has returned. -/
inductive Phase where
  | catchup
  | steady
  | returned
deriving DecidableEq, Repr

structure CoordState where
  phase : Phase
  store : StoreM
  /-- `newUids` (watch.go:84): per-kind set of uids observed this round. -/
  newUids : List (Kind × List String)
  listCnt : Nat
  exitCnt : Nat
  dirty : Bool
  /-- The snapshots handed to `w.notify()` so far, oldest first. -/
  callbacks : List StoreM
deriving DecidableEq, Repr

/-- The pre-loop setup (watch.go:83-92): for every registered watch,
reset its kind's entry in `newUids` and create a missing store bucket
(which sets `dirty`).  The coordinator only uses the dynamic item type
of each watch, so a round is described by the list of registered kinds
(one entry per registration; duplicates allowed). -/
def initStep (st : CoordState) (k : Kind) : CoordState :=
  let st' : CoordState := { st with newUids := insertA st.newUids k [] }
  match lookupA st'.store k with
  | some _ => st'
  | none => { st' with store := insertA st'.store k [], dirty := true }

def initRound (watches : List Kind) (store0 : StoreM) : CoordState :=
  watches.foldl initStep
    { phase := Phase.catchup, store := store0, newUids := [], listCnt := 0,
      exitCnt := 0, dirty := false, callbacks := [] }

/-- Merging one listed resource (watch.go:96-105).  `none` models the two
nil-map writes that would panic in Go: `newUids[rt][uid] = struct{}{}`
when the item's kind has no `newUids` entry, and
`w.store[rt][uid] = newResource` when it has no store bucket.  (Both maps
are pre-populated for every registered kind by the setup, so neither
panic fires for items of registered kinds.) -/
def mergeItem (st : CoordState) (r : Resource) : Option CoordState :=
  match lookupA st.newUids r.kind with
  | none => none
  | some us =>
    let nu' := insertA st.newUids r.kind (if r.uid ∈ us then us else us ++ [r.uid])
    match lookupA st.store r.kind with
    | none => none
    | some bucket =>
      match lookupA bucket r.uid with
      | none =>
        some { st with newUids := nu',
                       store := insertA st.store r.kind (insertA bucket r.uid r), dirty := true }
      | some old =>
        -- watch.go:102 compares `GetResourceVersion()` values
        if getResourceVersion old ≠ getResourceVersion r then
          some { st with newUids := nu',
                         store := insertA st.store r.kind (insertA bucket r.uid r), dirty := true }
        else
          some { st with newUids := nu' }

def mergeItems (st : CoordState) : List Resource → Option CoordState
  | [] => some st
  | r :: rest =>
    match mergeItem st r with
    | none => none
    | some st' => mergeItems st' rest

/-- Result of offering one channel message to the coordinator. -/
inductive StepRes where
  | ok (st : CoordState)
  /-- the coordinator goroutine panicked -/
  | panicked
  /-- no select case receives this message in the current phase: the
  sending session blocks -/
  | blocked
deriving DecidableEq, Repr

/-- One delivery to the blocking select of the current phase.

Catch-up (watch.go:93-119): the select receives only from `listCh` and
`exitCh`; an `event` on `watchCh` has no receiver, so its sender blocks
(`blocked`).  After the last listing, `if listCnt == len(w.watches)`
executes `break` (watch.go:110) — in Go a plain `break` terminates the
innermost `for`, `switch` or `select` statement, which here is the
`select`, so the enclosing `for` is re-entered and the phase stays
`catchup`.  The only way out of the loop is the `return` at watch.go:116
once every session has signalled `exitCh`.

Steady state (watch.go:132-162): the select receives only from `watchCh`
and `exitCh`; a late `listing` would block its sender. -/
def deliver (n : Nat) (st : CoordState) (m : Msg) : StepRes :=
  match st.phase with
  | Phase.catchup =>
    match m with
    | Msg.listing items =>
      match mergeItems st items with
      | none => StepRes.panicked
      | some st' => StepRes.ok { st' with listCnt := st'.listCnt + 1 }
    | Msg.exit =>
      if st.exitCnt + 1 = n then
        StepRes.ok { st with exitCnt := st.exitCnt + 1, phase := Phase.returned }
      else
        StepRes.ok { st with exitCnt := st.exitCnt + 1 }
    | Msg.event _ => StepRes.blocked
  | Phase.steady =>
    match m with
    | Msg.event ev =>
      match handleEvent st.store ev with
      | none => StepRes.panicked
      | some (store', notified) =>
        StepRes.ok { st with store := store',
                             callbacks := st.callbacks ++ (if notified then [store'] else []) }
    | Msg.exit =>
      if st.exitCnt + 1 = n then
        StepRes.ok { st with exitCnt := st.exitCnt + 1, phase := Phase.returned }
      else
        StepRes.ok { st with exitCnt := st.exitCnt + 1 }
    | Msg.listing _ => StepRes.blocked
  | Phase.returned => StepRes.blocked

/-- Run the coordinator over a schedule of incoming messages. -/
def runMsgs (n : Nat) (st : CoordState) : List Msg → StepRes
  | [] => StepRes.ok st
  | m :: rest =>
    match deliver n st m with
    | StepRes.ok st' => runMsgs n st' rest
    | r => r

/-- The omission-deletion pass (watch.go:120-127), written after the
catch-up loop: for every kind in the store, drop every uid that is not in
this round's observed set (`newUids[rt]` reads as the nil map for an
unregistered kind, so every such uid tests absent).  Returns the new
store and whether anything was deleted (the `dirty` contribution). -/
def keepBucket (nu : List (Kind × List String)) (k : Kind) (b : UidMap) : UidMap :=
  b.filter (fun q => q.1 ∈ (lookupA nu k).getD [])

def omissionDelete (store : StoreM) (nu : List (Kind × List String)) : StoreM × Bool :=
  store.foldr
    (fun p acc =>
      ((p.1, keepBucket nu p.1 p.2) :: acc.1,
        acc.2 || decide ((keepBucket nu p.1 p.2).length ≠ p.2.length)))
    ([], false)

/-! ### `(*WatchingStore).Run` (watch.go:56-63)

`Run` loops: it reads `ctx.Err()`, returns that error if it is non-nil,
and otherwise executes one round `w.run(ctx)` and loops again.  We model
an execution of `Run` by the finite sequence of `ctx.Err()` observations
it actually makes (one per loop iteration; `context.Err` values are
`Canceled` or `DeadlineExceeded` once the context is done, nil before). -/

inductive CtxErr where
  | canceled
  | deadlineExceeded
deriving DecidableEq, Repr

inductive RunOutcome where
  /-- `Run` returned; the payload is the Go `error` value it returned
  (`none` models a nil error). -/
  | returned (e : Option CtxErr)
  /-- `Run` is still looping (or stuck inside `w.run`). -/
  | running
deriving DecidableEq, Repr

def Run : List (Option CtxErr) → RunOutcome
  | [] => RunOutcome.running
  | o :: rest =>
    match o with
    | some e => RunOutcome.returned (some e)
    | none => Run rest

/-! ### `newWatch` descriptor validation (watch.go:212-237)

A shallow model of the `reflect` types involved.  Whether a type
implements `k8s.Resource` depends on its method set, which the structural
grammar does not carry, so the `Implements` test is an oracle parameter. -/

inductive RType where
  | ptr : RType → RType
  | slice : RType → RType
  | strukt : List (String × RType) → RType
  | base : String → RType

/-- `reflect.Type.FieldByName` (used at watch.go:217): panics unless the
type's Kind is struct; on a struct it returns the field and a found flag.
The outer `none` is the panic. -/
def fieldByName (t : RType) (name : String) : Option (Option RType) :=
  match t with
  | RType.strukt fields => some (lookupA fields name)
  | _ => none

/-- Which of `newWatch`'s own validation panics fired
(`panic(errors.Errorf(...))`, watch.go:215/219/222/226/229). -/
inductive ConfigCheck where
  | listNotPtr
  | noItemsField
  | itemsNotSlice
  | itemNotResource
  | itemNotPtr
deriving DecidableEq, Repr

inductive NewWatchRes where
  /-- validation passed; the watch is built around the item type -/
  | ok (itemType : RType)
  /-- one of `newWatch`'s own configuration panics -/
  | configPanic (c : ConfigCheck)
  /-- a panic raised inside the reflect package itself -/
  | reflectPanic

/-- `newWatch` (watch.go:212-237), check for check in source order.
`listType` is `reflect.TypeOf(resourceList)`; after the pointer-kind
check, the code calls `listType.FieldByName("Items")` on the pointer
type itself (not `listType.Elem()`), and `FieldByName` panics for any
non-struct kind. -/
def newWatch (impl : RType → Bool) (listType : RType) : NewWatchRes :=
  match listType with
  | RType.ptr _ =>
    match fieldByName listType ("Items") with
    | none => NewWatchRes.reflectPanic
    | some none => NewWatchRes.configPanic ConfigCheck.noItemsField
    | some (some itemsTy) =>
      match itemsTy with
      | RType.slice itemTy =>
        if impl itemTy then
          match itemTy with
          | RType.ptr _ => NewWatchRes.ok itemTy
          | _ => NewWatchRes.configPanic ConfigCheck.itemNotPtr
        else
          NewWatchRes.configPanic ConfigCheck.itemNotResource
      | _ => NewWatchRes.configPanic ConfigCheck.itemsNotSlice
  | _ => NewWatchRes.configPanic ConfigCheck.listNotPtr

/-! ### Store well-formedness -/

/-- Every bucket is keyed by the records' own dynamic type, every record
by its own uid, and both levels have the unique keys of a Go map. -/
def WFStore (s : StoreM) : Prop :=
  NodupA s ∧ ∀ p ∈ s, NodupA p.2 ∧ ∀ q ∈ p.2, q.2.kind = p.1 ∧ q.2.uid = q.1

instance (s : StoreM) : Decidable (WFStore s) := by
  unfold WFStore
  infer_instance

/-! ### Sample data for concrete evaluations -/

def podU1V1 : Resource := ⟨"Pod", "u1", some (1, "v1"), "b1"⟩

/-- A fresh decode of the same resource as `podU1V1`: identical version
token "v1", but the metadata ResourceVersion string sits in a new
allocation (id 2), as after `getNewResourceInstance` + `watcher.Next`. -/
def podU1V1fresh : Resource := ⟨"Pod", "u1", some (2, "v1"), "b1"⟩

def podU2V1 : Resource := ⟨"Pod", "u2", some (3, "v1"), "b3"⟩

/-! ### Association-list map lemmas -/

theorem lookupA_insertA_self {α β : Type} [DecidableEq α] (l : List (α × β)) (k : α) (v : β) :
    lookupA (insertA l k v) k = some v := by
  induction l with
  | nil => simp [lookupA, insertA]
  | cons p t ih =>
    obtain ⟨a, b⟩ := p
    by_cases h : a = k
    · simp [insertA, lookupA, h]
    · simp [insertA, lookupA, h, ih]

theorem lookupA_insertA_ne {α β : Type} [DecidableEq α] (l : List (α × β)) (k k' : α) (v : β)
    (h : k' ≠ k) : lookupA (insertA l k v) k' = lookupA l k' := by
  have hkk : k ≠ k' := Ne.symm h
  induction l with
  | nil => simp [lookupA, insertA, hkk]
  | cons p t ih =>
    obtain ⟨a, b⟩ := p
    by_cases hk : a = k
    · subst hk
      simp [insertA, lookupA, hkk]
    · simp only [insertA, hk, if_neg, not_false_iff]
      by_cases hk' : a = k'
      · simp [lookupA, hk']
      · simp [lookupA, hk', ih]

theorem mem_insertA {α β : Type} [DecidableEq α] (l : List (α × β)) (k : α) (v : β) :
    ∀ q ∈ insertA l k v, q = (k, v) ∨ q ∈ l := by
  induction l with
  | nil =>
    intro q hq
    simp only [insertA, List.mem_singleton] at hq
    exact Or.inl hq
  | cons p t ih =>
    obtain ⟨a, b⟩ := p
    intro q hq
    by_cases h : a = k
    · simp only [insertA, h, if_pos, List.mem_cons] at hq
      rcases hq with hq | hq
      · exact Or.inl hq
      · exact Or.inr (List.mem_cons_of_mem _ hq)
    · simp only [insertA, h, if_neg, not_false_iff, List.mem_cons] at hq
      rcases hq with hq | hq
      · exact Or.inr (by simp [hq])
      · rcases ih q hq with h' | h'
        · exact Or.inl h'
        · exact Or.inr (List.mem_cons_of_mem _ h')

theorem mem_eraseA {α β : Type} [DecidableEq α] (l : List (α × β)) (k : α) :
    ∀ q ∈ eraseA l k, q ∈ l := by
  induction l with
  | nil =>
    intro q hq
    simp [eraseA] at hq
  | cons p t ih =>
    obtain ⟨a, b⟩ := p
    intro q hq
    by_cases h : a = k
    · simp only [eraseA, h, if_pos] at hq
      exact List.mem_cons_of_mem _ hq
    · simp only [eraseA, h, if_neg, not_false_iff, List.mem_cons] at hq
      rcases hq with hq | hq
      · simp [hq]
      · exact List.mem_cons_of_mem _ (ih q hq)

theorem nodupA_insertA {α β : Type} [DecidableEq α] (l : List (α × β)) (k : α) (v : β)
    (h : NodupA l) : NodupA (insertA l k v) := by
  induction l with
  | nil => simp [insertA, NodupA]
  | cons p t ih =>
    obtain ⟨a, b⟩ := p
    rw [NodupA, List.pairwise_cons] at h
    by_cases hk : a = k
    · subst hk
      simp only [insertA, if_pos]
      rw [NodupA, List.pairwise_cons]
      exact ⟨h.1, h.2⟩
    · simp only [insertA, hk, if_neg, not_false_iff]
      rw [NodupA, List.pairwise_cons]
      constructor
      · intro q hq
        rcases mem_insertA t k v q hq with h' | h'
        · rw [h']
          exact hk
        · exact h.1 q h'
      · exact ih h.2

theorem nodupA_eraseA {α β : Type} [DecidableEq α] (l : List (α × β)) (k : α)
    (h : NodupA l) : NodupA (eraseA l k) := by
  induction l with
  | nil => simp [eraseA, NodupA]
  | cons p t ih =>
    obtain ⟨a, b⟩ := p
    rw [NodupA, List.pairwise_cons] at h
    by_cases hk : a = k
    · simp only [eraseA, hk, if_pos]
      exact h.2
    · simp only [eraseA, hk, if_neg, not_false_iff]
      rw [NodupA, List.pairwise_cons]
      exact ⟨fun q hq => h.1 q (mem_eraseA t k q hq), ih h.2⟩

theorem lookupA_mem {α β : Type} [DecidableEq α] (l : List (α × β)) (k : α) (v : β)
    (h : lookupA l k = some v) : (k, v) ∈ l := by
  induction l with
  | nil => simp [lookupA] at h
  | cons p t ih =>
    obtain ⟨a, b⟩ := p
    by_cases hk : a = k
    · simp only [lookupA, hk, if_pos] at h
      cases h
      subst hk
      exact List.mem_cons_self _ _
    · simp only [lookupA, hk, if_neg, not_false_iff] at h
      exact List.mem_cons_of_mem _ (ih h)

theorem lookupA_of_mem_nodup {α β : Type} [DecidableEq α] (l : List (α × β)) (k : α) (v : β)
    (hn : NodupA l) (h : (k, v) ∈ l) : lookupA l k = some v := by
  induction l with
  | nil => simp at h
  | cons p t ih =>
    obtain ⟨a, b⟩ := p
    rw [NodupA, List.pairwise_cons] at hn
    rcases List.mem_cons.mp h with h | h
    · have h1 : k = a := congrArg Prod.fst h
      have h2 : v = b := congrArg Prod.snd h
      simp [lookupA, h1.symm, h2.symm]
    · have hk : a ≠ k := by
        intro hc
        exact (hn.1 (k, v) h) (by simpa using hc)
      simp [lookupA, hk, ih hn.2 h]

/-! ### Structural lemmas about one merge step -/

theorem mergeItem_shape (st : CoordState) (r : Resource) (st' : CoordState)
    (h : mergeItem st r = some st') :
    ∃ us bucket, lookupA st.newUids r.kind = some us ∧
      lookupA st.store r.kind = some bucket ∧
      st'.newUids = insertA st.newUids r.kind (if r.uid ∈ us then us else us ++ [r.uid]) ∧
      st'.phase = st.phase ∧ st'.callbacks = st.callbacks ∧
      st'.listCnt = st.listCnt ∧ st'.exitCnt = st.exitCnt ∧
      ((st'.store = st.store ∧ st'.dirty = st.dirty ∧
          ∃ old, lookupA bucket r.uid = some old ∧
            getResourceVersion old = getResourceVersion r) ∨
        (st'.store = insertA st.store r.kind (insertA bucket r.uid r) ∧ st'.dirty = true)) := by
  cases hnu : lookupA st.newUids r.kind with
  | none => simp [mergeItem, hnu] at h
  | some us =>
    cases hb : lookupA st.store r.kind with
    | none => simp [mergeItem, hnu, hb] at h
    | some bucket =>
      cases ho : lookupA bucket r.uid with
      | none =>
        simp only [mergeItem, hnu, hb, ho, Option.some.injEq] at h
        subst h
        exact ⟨us, bucket, rfl, rfl, rfl, rfl, rfl, rfl, rfl, Or.inr ⟨rfl, rfl⟩⟩
      | some old =>
        by_cases hv : getResourceVersion old = getResourceVersion r
        · simp only [mergeItem, hnu, hb, ho] at h
          rw [if_neg (fun hc => hc hv)] at h
          have h' := Option.some.inj h
          subst h'
          exact ⟨us, bucket, rfl, rfl, rfl, rfl, rfl, rfl, rfl,
            Or.inl ⟨rfl, rfl, old, ho, hv⟩⟩
        · simp only [mergeItem, hnu, hb, ho] at h
          rw [if_pos hv] at h
          have h' := Option.some.inj h
          subst h'
          exact ⟨us, bucket, rfl, rfl, rfl, rfl, rfl, rfl, rfl, Or.inr ⟨rfl, rfl⟩⟩

theorem mergeItems_frame (items : List Resource) (st st' : CoordState)
    (h : mergeItems st items = some st') :
    st'.phase = st.phase ∧ st'.callbacks = st.callbacks ∧ st'.exitCnt = st.exitCnt := by
  induction items generalizing st with
  | nil =>
    have h' := Option.some.inj h
    subst h'
    exact ⟨rfl, rfl, rfl⟩
  | cons r rest ih =>
    simp only [mergeItems] at h
    cases hm : mergeItem st r with
    | none => rw [hm] at h; cases h
    | some st1 =>
      rw [hm] at h
      obtain ⟨_, _, _, _, _, hph, hcb, _, hex, _⟩ := mergeItem_shape st r st1 hm
      obtain ⟨hph', hcb', hex'⟩ := ih st1 h
      exact ⟨hph'.trans hph, hcb'.trans hcb, hex'.trans hex⟩

/-! ### Well-formedness preservation -/

theorem WFStore_insert (s : StoreM) (k : Kind) (b : UidMap)
    (hs : WFStore s) (hb : NodupA b) (hk : ∀ q ∈ b, q.2.kind = k ∧ q.2.uid = q.1) :
    WFStore (insertA s k b) := by
  refine ⟨nodupA_insertA s k b hs.1, ?_⟩
  intro p hp
  rcases mem_insertA s k b p hp with h | h
  · subst h
    exact ⟨hb, hk⟩
  · exact hs.2 p h

theorem WFStore_bucket (s : StoreM) (k : Kind) (b : UidMap)
    (hs : WFStore s) (h : lookupA s k = some b) :
    NodupA b ∧ ∀ q ∈ b, q.2.kind = k ∧ q.2.uid = q.1 :=
  hs.2 (k, b) (lookupA_mem s k b h)

theorem mergeItem_WF (st : CoordState) (r : Resource) (st' : CoordState)
    (hw : WFStore st.store) (h : mergeItem st r = some st') : WFStore st'.store := by
  obtain ⟨us, bucket, hnu, hb, _, _, _, _, _, hd⟩ := mergeItem_shape st r st' h
  rcases hd with ⟨hst, _, _⟩ | ⟨hst, _⟩
  · rw [hst]
    exact hw
  · rw [hst]
    obtain ⟨hbn, hbk⟩ := WFStore_bucket st.store r.kind bucket hw hb
    refine WFStore_insert _ _ _ hw (nodupA_insertA _ _ _ hbn) ?_
    intro q hq
    rcases mem_insertA bucket r.uid r q hq with h' | h'
    · subst h'
      exact ⟨rfl, rfl⟩
    · exact hbk q h'

theorem mergeItems_WF (items : List Resource) (st st' : CoordState)
    (hw : WFStore st.store) (h : mergeItems st items = some st') : WFStore st'.store := by
  induction items generalizing st with
  | nil =>
    have h' := Option.some.inj h
    subst h'
    exact hw
  | cons r rest ih =>
    simp only [mergeItems] at h
    cases hm : mergeItem st r with
    | none => rw [hm] at h; cases h
    | some st1 =>
      rw [hm] at h
      exact ih st1 (mergeItem_WF st r st1 hw hm) h

theorem handleEvent_WF (s : StoreM) (ev : watchEvent) (s' : StoreM) (nb : Bool)
    (hw : WFStore s) (h : handleEvent s ev = some (s', nb)) : WFStore s' := by
  by_cases hd : ev.eventType = EventDeleted
  · cases hb : lookupA s ev.resource.kind with
    | none =>
      simp only [handleEvent, hd, if_true, hb] at h
      obtain ⟨h1, _⟩ := Prod.mk.injEq .. ▸ Option.some.inj h
      rw [← h1]
      exact hw
    | some bucket =>
      simp only [handleEvent, hd, if_true, hb] at h
      obtain ⟨h1, _⟩ := Prod.mk.injEq .. ▸ Option.some.inj h
      rw [← h1]
      obtain ⟨hbn, hbk⟩ := WFStore_bucket s ev.resource.kind bucket hw hb
      exact WFStore_insert _ _ _ hw (nodupA_eraseA _ _ hbn)
        (fun q hq => hbk q (mem_eraseA bucket ev.resource.uid q hq))
  · by_cases ha : ev.eventType = EventAdded ∨ ev.eventType = EventModified
    · cases hb : lookupA s ev.resource.kind with
      | none => simp [handleEvent, hd, ha, hb] at h
      | some bucket =>
        cases ho : lookupA bucket ev.resource.uid with
        | none => simp [handleEvent, hd, ha, hb, ho] at h
        | some old =>
          simp only [handleEvent, hd, if_false, ha, if_true, hb, ho] at h
          by_cases hv : old.resourceVersion = ev.resource.resourceVersion
          · rw [if_neg (fun hc => hc hv)] at h
            obtain ⟨h1, _⟩ := Prod.mk.injEq .. ▸ Option.some.inj h
            rw [← h1]
            exact hw
          · rw [if_pos hv] at h
            obtain ⟨h1, _⟩ := Prod.mk.injEq .. ▸ Option.some.inj h
            rw [← h1]
            obtain ⟨hbn, hbk⟩ := WFStore_bucket s ev.resource.kind bucket hw hb
            refine WFStore_insert _ _ _ hw (nodupA_insertA _ _ _ hbn) ?_
            intro q hq
            rcases mem_insertA bucket ev.resource.uid ev.resource q hq with h' | h'
            · subst h'
              exact ⟨rfl, rfl⟩
            · exact hbk q h'
    · simp [handleEvent, hd, ha] at h

theorem deliver_WF (n : Nat) (st : CoordState) (m : Msg) (st' : CoordState)
    (hw : WFStore st.store) (h : deliver n st m = StepRes.ok st') : WFStore st'.store := by
  cases hp : st.phase with
  | catchup =>
    cases m with
    | listing items =>
      simp only [deliver, hp] at h
      cases hm : mergeItems st items with
      | none => rw [hm] at h; cases h
      | some st1 =>
        rw [hm] at h
        have h' := StepRes.ok.inj h
        rw [← h']
        exact mergeItems_WF items st st1 hw hm
    | event ev => simp [deliver, hp] at h
    | exit =>
      simp only [deliver, hp] at h
      by_cases hc : st.exitCnt + 1 = n
      · rw [if_pos hc] at h
        have h' := StepRes.ok.inj h
        rw [← h']
        exact hw
      · rw [if_neg hc] at h
        have h' := StepRes.ok.inj h
        rw [← h']
        exact hw
  | steady =>
    cases m with
    | listing items => simp [deliver, hp] at h
    | event ev =>
      simp only [deliver, hp] at h
      cases he : handleEvent st.store ev with
      | none => rw [he] at h; cases h
      | some res =>
        obtain ⟨s1, nb⟩ := res
        rw [he] at h
        have h' := StepRes.ok.inj h
        rw [← h']
        exact handleEvent_WF st.store ev s1 nb hw he
    | exit =>
      simp only [deliver, hp] at h
      by_cases hc : st.exitCnt + 1 = n
      · rw [if_pos hc] at h
        have h' := StepRes.ok.inj h
        rw [← h']
        exact hw
      · rw [if_neg hc] at h
        have h' := StepRes.ok.inj h
        rw [← h']
        exact hw
  | returned => simp [deliver, hp] at h

theorem omissionDelete_fst (s : StoreM) (nu : List (Kind × List String)) :
    (omissionDelete s nu).1 = s.map (fun p => (p.1, keepBucket nu p.1 p.2)) := by
  induction s with
  | nil => rfl
  | cons p t ih =>
    simp only [omissionDelete, List.foldr_cons, List.map_cons]
    simp only [omissionDelete] at ih
    rw [ih]

theorem lookupA_insertA_isSome {α β : Type} [DecidableEq α] (l : List (α × β)) (k k' : α) (v : β)
    (h : (lookupA l k').isSome) : (lookupA (insertA l k v) k').isSome := by
  by_cases hk : k' = k
  · subst hk
    rw [lookupA_insertA_self]
    rfl
  · rw [lookupA_insertA_ne l k k' v hk]
    exact h

/-! ### The setup loop (watch.go:83-92) -/

theorem initStep_frame (st : CoordState) (k : Kind) :
    (initStep st k).phase = st.phase ∧ (initStep st k).callbacks = st.callbacks ∧
    (initStep st k).listCnt = st.listCnt ∧ (initStep st k).exitCnt = st.exitCnt := by
  cases hb : lookupA st.store k with
  | none => simp [initStep, hb]
  | some b => simp [initStep, hb]

theorem initStep_store_some (st : CoordState) (k : Kind)
    (h : (lookupA st.store k).isSome) : (initStep st k).store = st.store := by
  cases hb : lookupA st.store k with
  | none => rw [hb] at h; simp at h
  | some b => simp [initStep, hb]

theorem initStep_newUids (st : CoordState) (k : Kind) :
    (initStep st k).newUids = insertA st.newUids k [] := by
  cases hb : lookupA st.store k with
  | none => simp [initStep, hb]
  | some b => simp [initStep, hb]

theorem foldl_initStep_phase (ws : List Kind) (st : CoordState) :
    (ws.foldl initStep st).phase = st.phase := by
  induction ws generalizing st with
  | nil => rfl
  | cons k ws ih =>
    rw [List.foldl_cons, ih]
    exact (initStep_frame st k).1

theorem foldl_initStep_inv (ws : List Kind) (st : CoordState)
    (h1 : ∀ k ∈ ws, (lookupA st.store k).isSome) :
    (ws.foldl initStep st).store = st.store ∧
    (ws.foldl initStep st).callbacks = st.callbacks ∧
    (∀ k', (lookupA st.newUids k').isSome →
      (lookupA (ws.foldl initStep st).newUids k').isSome) ∧
    (∀ k ∈ ws, (lookupA (ws.foldl initStep st).newUids k).isSome) := by
  induction ws generalizing st with
  | nil => exact ⟨rfl, rfl, fun _ h => h, by simp⟩
  | cons k ws ih =>
    have hst : (initStep st k).store = st.store :=
      initStep_store_some st k (h1 k (List.mem_cons_self _ _))
    have h1' : ∀ k' ∈ ws, (lookupA (initStep st k).store k').isSome := by
      intro k' hk'
      rw [hst]
      exact h1 k' (List.mem_cons_of_mem _ hk')
    obtain ⟨ihs, ihc, ihmono, ihall⟩ := ih (initStep st k) h1'
    rw [List.foldl_cons]
    refine ⟨ihs.trans hst, ihc.trans (initStep_frame st k).2.1, ?_, ?_⟩
    · intro k' hk'
      refine ihmono k' ?_
      rw [initStep_newUids]
      exact lookupA_insertA_isSome _ _ _ _ hk'
    · intro k' hk'
      rcases List.mem_cons.mp hk' with hk' | hk'
      · subst hk'
        refine ihmono k' ?_
        rw [initStep_newUids, lookupA_insertA_self]
        rfl
      · exact ihall k' hk'

theorem initRound_inv (watches : List Kind) (store0 : StoreM)
    (h1 : ∀ k ∈ watches, (lookupA store0 k).isSome) :
    (initRound watches store0).store = store0 ∧
    (initRound watches store0).callbacks = [] ∧
    (initRound watches store0).phase = Phase.catchup ∧
    ∀ k ∈ watches, (lookupA (initRound watches store0).newUids k).isSome := by
  unfold initRound
  obtain ⟨hs, hc, _, hall⟩ := foldl_initStep_inv watches
    { phase := Phase.catchup, store := store0, newUids := [], listCnt := 0,
      exitCnt := 0, dirty := false, callbacks := [] } h1
  exact ⟨hs, hc, foldl_initStep_phase _ _, hall⟩

/-! ### The phase never reaches the steady-state loop -/

theorem deliver_not_steady (n : Nat) (st : CoordState) (m : Msg) (st' : CoordState)
    (h : deliver n st m = StepRes.ok st') (hp : st.phase ≠ Phase.steady) :
    st'.phase ≠ Phase.steady := by
  cases hph : st.phase with
  | steady => exact absurd hph hp
  | returned => simp [deliver, hph] at h
  | catchup =>
    cases m with
    | listing items =>
      simp only [deliver, hph] at h
      cases hm : mergeItems st items with
      | none => rw [hm] at h; cases h
      | some st1 =>
        rw [hm] at h
        have h' := StepRes.ok.inj h
        rw [← h']
        have := (mergeItems_frame items st st1 hm).1
        simp [this, hph]
    | event ev => simp [deliver, hph] at h
    | exit =>
      simp only [deliver, hph] at h
      by_cases hc : st.exitCnt + 1 = n
      · rw [if_pos hc] at h
        have h' := StepRes.ok.inj h
        rw [← h']
        simp
      · rw [if_neg hc] at h
        have h' := StepRes.ok.inj h
        rw [← h']
        simp [hph]

theorem runMsgs_not_steady (n : Nat) (st : CoordState) (msgs : List Msg) (st' : CoordState)
    (h : runMsgs n st msgs = StepRes.ok st') (hp : st.phase ≠ Phase.steady) :
    st'.phase ≠ Phase.steady := by
  induction msgs generalizing st with
  | nil =>
    have h' := StepRes.ok.inj h
    rw [← h']
    exact hp
  | cons m rest ih =>
    simp only [runMsgs] at h
    cases hd : deliver n st m with
    | ok st1 =>
      rw [hd] at h
      exact ih st1 h (deliver_not_steady n st m st1 hd hp)
    | panicked => rw [hd] at h; cases h
    | blocked => rw [hd] at h; cases h

theorem deliver_event_blocked (n : Nat) (st : CoordState) (ev : watchEvent)
    (hp : st.phase ≠ Phase.steady) :
    deliver n st (Msg.event ev) = StepRes.blocked := by
  cases hph : st.phase with
  | steady => exact absurd hph hp
  | catchup => simp [deliver, hph]
  | returned => simp [deliver, hph]

/-! ### No-op merges (identical relisted data) -/

theorem mergeItem_noop (st : CoordState) (r : Resource)
    (hus : (lookupA st.newUids r.kind).isSome)
    (hold : ∃ old, lookup2 st.store r.kind r.uid = some old ∧
      getResourceVersion old = getResourceVersion r) :
    ∃ st', mergeItem st r = some st' ∧ st'.store = st.store ∧
      st'.callbacks = st.callbacks ∧ st'.phase = st.phase ∧ st'.dirty = st.dirty ∧
      ∀ k', (lookupA st.newUids k').isSome → (lookupA st'.newUids k').isSome := by
  obtain ⟨old, ho2, hv⟩ := hold
  obtain ⟨us, hus'⟩ := Option.isSome_iff_exists.mp hus
  cases hb : lookupA st.store r.kind with
  | none => simp [lookup2, hb] at ho2
  | some bucket =>
    simp only [lookup2, hb] at ho2
    have hdef : mergeItem st r = some { st with newUids := insertA st.newUids r.kind (if r.uid ∈ us then us else us ++ [r.uid]) } := by
      simp only [mergeItem, hus', hb, ho2]
      rw [if_neg (fun hc => hc hv)]
    exact ⟨_, hdef, rfl, rfl, rfl, rfl, fun k' hk' => lookupA_insertA_isSome _ _ _ _ hk'⟩

theorem mergeItems_noop (items : List Resource) (st : CoordState)
    (h : ∀ r ∈ items, (lookupA st.newUids r.kind).isSome ∧
      ∃ old, lookup2 st.store r.kind r.uid = some old ∧
        getResourceVersion old = getResourceVersion r) :
    ∃ st', mergeItems st items = some st' ∧ st'.store = st.store ∧
      st'.callbacks = st.callbacks ∧ st'.phase = st.phase ∧ st'.dirty = st.dirty ∧
      ∀ k', (lookupA st.newUids k').isSome → (lookupA st'.newUids k').isSome := by
  induction items generalizing st with
  | nil => exact ⟨st, rfl, rfl, rfl, rfl, rfl, fun _ h => h⟩
  | cons r rest ih =>
    obtain ⟨hus, hold⟩ := h r (List.mem_cons_self _ _)
    obtain ⟨st1, hm, hs1, hc1, hp1, hd1, hmono1⟩ := mergeItem_noop st r hus hold
    have h' : ∀ r' ∈ rest, (lookupA st1.newUids r'.kind).isSome ∧
        ∃ old, lookup2 st1.store r'.kind r'.uid = some old ∧
          getResourceVersion old = getResourceVersion r' := by
      intro r' hr'
      obtain ⟨hus', hold'⟩ := h r' (List.mem_cons_of_mem _ hr')
      exact ⟨hmono1 _ hus', by rw [hs1]; exact hold'⟩
    obtain ⟨st2, hm2, hs2, hc2, hp2, hd2, hmono2⟩ := ih st1 h'
    refine ⟨st2, ?_, hs2.trans hs1, hc2.trans hc1, hp2.trans hp1, hd2.trans hd1,
      fun k' hk' => hmono2 k' (hmono1 k' hk')⟩
    simp only [mergeItems, hm]
    exact hm2

theorem deliver_callbacks (n : Nat) (st : CoordState) (m : Msg) (st' : CoordState)
    (h : deliver n st m = StepRes.ok st') (hp : st.phase ≠ Phase.steady) :
    st'.callbacks = st.callbacks := by
  cases hph : st.phase with
  | steady => exact absurd hph hp
  | returned => simp [deliver, hph] at h
  | catchup =>
    cases m with
    | listing items =>
      simp only [deliver, hph] at h
      cases hm : mergeItems st items with
      | none => rw [hm] at h; cases h
      | some st1 =>
        rw [hm] at h
        have h' := StepRes.ok.inj h
        rw [← h']
        exact (mergeItems_frame items st st1 hm).2.1
    | event ev => simp [deliver, hph] at h
    | exit =>
      simp only [deliver, hph] at h
      by_cases hc : st.exitCnt + 1 = n
      · rw [if_pos hc] at h
        have h' := StepRes.ok.inj h
        rw [← h']
      · rw [if_neg hc] at h
        have h' := StepRes.ok.inj h
        rw [← h']

theorem runMsgs_callbacks (n : Nat) (st : CoordState) (msgs : List Msg) (st' : CoordState)
    (h : runMsgs n st msgs = StepRes.ok st') (hp : st.phase ≠ Phase.steady) :
    st'.callbacks = st.callbacks := by
  induction msgs generalizing st with
  | nil =>
    have h' := StepRes.ok.inj h
    rw [← h']
  | cons m rest ih =>
    simp only [runMsgs] at h
    cases hd : deliver n st m with
    | ok st1 =>
      rw [hd] at h
      exact (ih st1 h (deliver_not_steady n st m st1 hd hp)).trans
        (deliver_callbacks n st m st1 hd hp)
    | panicked => rw [hd] at h; cases h
    | blocked => rw [hd] at h; cases h

theorem lookup2_some (store : StoreM) (rt : Kind) (uid : String) (b : UidMap)
    (h : lookupA store rt = some b) : lookup2 store rt uid = lookupA b uid := by
  simp [lookup2, h]

theorem lookup2_insertA_isSome (store : StoreM) (rk : Kind) (bucket : UidMap)
    (ru : String) (r : Resource) (k : Kind) (uid : String)
    (hb : lookupA store rk = some bucket)
    (h : (lookup2 store k uid).isSome) :
    (lookup2 (insertA store rk (insertA bucket ru r)) k uid).isSome := by
  by_cases hk : k = rk
  · subst hk
    rw [lookup2_some _ _ _ _ (lookupA_insertA_self store k (insertA bucket ru r))]
    rw [lookup2_some _ _ _ _ hb] at h
    by_cases hu : uid = ru
    · subst hu
      rw [lookupA_insertA_self]
      rfl
    · rw [lookupA_insertA_ne bucket ru uid r hu]
      exact h
  · unfold lookup2 at h ⊢
    rw [lookupA_insertA_ne store rk k (insertA bucket ru r) hk]
    exact h

theorem mergeItem_presence (st : CoordState) (r : Resource) (st' : CoordState)
    (k : Kind) (uid : String)
    (h : mergeItem st r = some st') (hpres : (lookup2 st.store k uid).isSome) :
    (lookup2 st'.store k uid).isSome := by
  obtain ⟨us, bucket, hnu, hb, _, _, _, _, _, hd⟩ := mergeItem_shape st r st' h
  rcases hd with ⟨hst, _, _⟩ | ⟨hst, _⟩
  · rw [hst]
    exact hpres
  · rw [hst]
    exact lookup2_insertA_isSome st.store r.kind bucket r.uid r k uid hb hpres

theorem mergeItems_presence (items : List Resource) (st st' : CoordState)
    (k : Kind) (uid : String)
    (h : mergeItems st items = some st') (hpres : (lookup2 st.store k uid).isSome) :
    (lookup2 st'.store k uid).isSome := by
  induction items generalizing st with
  | nil =>
    have h' := Option.some.inj h
    rw [← h']
    exact hpres
  | cons r rest ih =>
    simp only [mergeItems] at h
    cases hm : mergeItem st r with
    | none => rw [hm] at h; cases h
    | some st1 =>
      rw [hm] at h
      exact ih st1 h (mergeItem_presence st r st1 k uid hm hpres)

theorem deliver_presence (n : Nat) (st : CoordState) (m : Msg) (st' : CoordState)
    (k : Kind) (uid : String)
    (h : deliver n st m = StepRes.ok st') (hp : st.phase ≠ Phase.steady)
    (hpres : (lookup2 st.store k uid).isSome) :
    (lookup2 st'.store k uid).isSome := by
  cases hph : st.phase with
  | steady => exact absurd hph hp
  | returned => simp [deliver, hph] at h
  | catchup =>
    cases m with
    | listing items =>
      simp only [deliver, hph] at h
      cases hm : mergeItems st items with
      | none => rw [hm] at h; cases h
      | some st1 =>
        rw [hm] at h
        have h' := StepRes.ok.inj h
        rw [← h']
        exact mergeItems_presence items st st1 k uid hm hpres
    | event ev => simp [deliver, hph] at h
    | exit =>
      simp only [deliver, hph] at h
      by_cases hc : st.exitCnt + 1 = n
      · rw [if_pos hc] at h
        have h' := StepRes.ok.inj h
        rw [← h']
        exact hpres
      · rw [if_neg hc] at h
        have h' := StepRes.ok.inj h
        rw [← h']
        exact hpres

theorem runMsgs_presence (n : Nat) (st : CoordState) (msgs : List Msg) (st' : CoordState)
    (k : Kind) (uid : String)
    (h : runMsgs n st msgs = StepRes.ok st') (hp : st.phase ≠ Phase.steady)
    (hpres : (lookup2 st.store k uid).isSome) :
    (lookup2 st'.store k uid).isSome := by
  induction msgs generalizing st with
  | nil =>
    have h' := StepRes.ok.inj h
    rw [← h']
    exact hpres
  | cons m rest ih =>
    simp only [runMsgs] at h
    cases hd : deliver n st m with
    | ok st1 =>
      rw [hd] at h
      exact ih st1 h (deliver_not_steady n st m st1 hd hp)
        (deliver_presence n st m st1 k uid hd hp hpres)
    | panicked => rw [hd] at h; cases h
    | blocked => rw [hd] at h; cases h

theorem runMsgs_noop (watches : List Kind) (store0 : StoreM) (n : Nat) (msgs : List Msg)
    (st : CoordState)
    (hst : st.store = store0) (hcb : st.callbacks = []) (hph : st.phase = Phase.catchup)
    (hnu : ∀ k ∈ watches, (lookupA st.newUids k).isSome)
    (h2 : ∀ m ∈ msgs, ∃ items, m = Msg.listing items ∧ ∀ r ∈ items, r.kind ∈ watches ∧
      ∃ old, lookup2 store0 r.kind r.uid = some old ∧
        getResourceVersion old = getResourceVersion r) :
    ∃ st', runMsgs n st msgs = StepRes.ok st' ∧ st'.store = store0 ∧ st'.callbacks = [] := by
  induction msgs generalizing st with
  | nil => exact ⟨st, rfl, hst, hcb⟩
  | cons m rest ih =>
    obtain ⟨items, hm, hitems⟩ := h2 m (List.mem_cons_self _ _)
    subst hm
    have hcond : ∀ r ∈ items, (lookupA st.newUids r.kind).isSome ∧
        ∃ old, lookup2 st.store r.kind r.uid = some old ∧
          getResourceVersion old = getResourceVersion r := by
      intro r hr
      obtain ⟨hk, old, ho, hv⟩ := hitems r hr
      exact ⟨hnu r.kind hk, old, by rw [hst]; exact ho, hv⟩
    obtain ⟨st1, hmm, hs1, hc1, hp1, _, hmono⟩ := mergeItems_noop items st hcond
    have hdel : deliver n st (Msg.listing items) =
        StepRes.ok { st1 with listCnt := st1.listCnt + 1 } := by
      simp only [deliver, hph, hmm]
    obtain ⟨st2, hrun, hs2, hc2⟩ := ih { st1 with listCnt := st1.listCnt + 1 }
      (by simpa [hs1] using hst) (by simpa [hc1] using hcb) (by simpa [hp1] using hph)
      (fun k hk => hmono k (hnu k hk))
      (fun m hm => h2 m (List.mem_cons_of_mem _ hm))
    refine ⟨st2, ?_, hs2, hc2⟩
    simp only [runMsgs, hdel]
    exact hrun

theorem omissionDelete_WF (s : StoreM) (nu : List (Kind × List String))
    (hw : WFStore s) : WFStore (omissionDelete s nu).1 := by
  rw [omissionDelete_fst]
  constructor
  · have : ∀ (l : StoreM), NodupA l → NodupA (l.map (fun p => (p.1, keepBucket nu p.1 p.2))) := by
      intro l hl
      rw [NodupA, List.pairwise_map]
      exact List.Pairwise.imp (fun {a b} hab => hab) hl
    exact this s hw.1
  · intro p hp
    rcases List.mem_map.mp hp with ⟨q, hq, hq1⟩
    obtain ⟨hqn, hqk⟩ := hw.2 q hq
    rw [← hq1]
    constructor
    · exact List.Pairwise.sublist (List.filter_sublist _) hqn
    · intro x hx
      exact hqk x (List.mem_of_mem_filter hx)

theorem foldl_initStep_callbacks (ws : List Kind) (st : CoordState) :
    (ws.foldl initStep st).callbacks = st.callbacks := by
  induction ws generalizing st with
  | nil => rfl
  | cons k ws ih =>
    rw [List.foldl_cons, ih]
    exact (initStep_frame st k).2.1

/-! ### Claim theorems -/

/-- Claim C1: the spec says that in a round where every registered session
delivers its initial listing and at least one insertion, replacement or
deletion occurred, the callback is invoked exactly once at the end of
catch-up, before any steady-state event.  The code violates this: the
plain `break` at watch.go:110 terminates only the enclosing `select`, not
the `for` loop, so the catch-up loop is never exited towards the
checkpoint and the notify call at watch.go:128-130 is unreachable.
First conjunct: on every message schedule of a round the callback is
never invoked at all.  Second conjunct: the concrete failing round — one
registration, its initial listing delivered (`listCnt = 1` equals the
number of watches), an insertion occurred (`dirty = true`) — ends with no
callback and with the coordinator still inside the catch-up loop. -/
theorem c1_checkpoint_never_invoked :
    (∀ (watches : List Kind) (store0 : StoreM) (msgs : List Msg) (st' : CoordState),
      runMsgs watches.length (initRound watches store0) msgs = StepRes.ok st' →
      st'.callbacks = []) ∧
    runMsgs 1 (initRound ["Pod"] []) [Msg.listing [podU1V1]] =
      StepRes.ok
        { phase := Phase.catchup, store := [("Pod", [("u1", podU1V1)])],
          newUids := [("Pod", ["u1"])], listCnt := 1, exitCnt := 0, dirty := true,
          callbacks := [] } := by
  constructor
  · intro watches store0 msgs st' h
    have hph : (initRound watches store0).phase = Phase.catchup := by
      unfold initRound
      exact foldl_initStep_phase _ _
    have hcb : (initRound watches store0).callbacks = [] := by
      unfold initRound
      exact foldl_initStep_callbacks _ _
    rw [runMsgs_callbacks _ _ _ _ h (by simp [hph])]
    exact hcb
  · decide

/-- Witness for C1: the first conjunct applied to the empty schedule of a
one-watch round. -/
theorem c1_checkpoint_never_invoked_witness : (initRound ["Pod"] []).callbacks = [] :=
  c1_checkpoint_never_invoked.1 ["Pod"] [] [] (initRound ["Pod"] []) rfl

/-- Claim C2: the spec says a uid present before a round's relist but
absent from the round's new listings for its kind is removed from the
store at the end of a successful catch-up, with a callback.  The code
violates this: the omission-deletion block (watch.go:120-127) sits after
the catch-up loop, which is never exited (the `break` at watch.go:110
terminates only the `select`), so it is unreachable.  First conjunct: a
record present when the coordinator is in the catch-up loop is still
present after any schedule of messages (nothing is ever deleted).
Second conjunct: the concrete failing round — the store holds u1, the
round lists only u2 — ends with u1 still stored and no callback. -/
theorem c2_omission_deletion_unreachable :
    (∀ (n : Nat) (st : CoordState) (msgs : List Msg) (st' : CoordState)
      (k : Kind) (uid : String),
      st.phase = Phase.catchup →
      runMsgs n st msgs = StepRes.ok st' →
      (lookup2 st.store k uid).isSome = true →
      (lookup2 st'.store k uid).isSome = true) ∧
    runMsgs 1 (initRound ["Pod"] [("Pod", [("u1", podU1V1)])]) [Msg.listing [podU2V1]] =
      StepRes.ok
        { phase := Phase.catchup,
          store := [("Pod", [("u1", podU1V1), ("u2", podU2V1)])],
          newUids := [("Pod", ["u2"])], listCnt := 1, exitCnt := 0, dirty := true,
          callbacks := [] } := by
  constructor
  · intro n st msgs st' k uid hph h hpres
    exact runMsgs_presence n st msgs st' k uid h (by simp [hph]) hpres
  · decide

/-- Witness for C2: the stale record u1 survives the failing round. -/
theorem c2_omission_deletion_unreachable_witness :
    (lookup2 [("Pod", [("u1", podU1V1), ("u2", podU2V1)])] "Pod" "u1").isSome = true :=
  c2_omission_deletion_unreachable.1 1 (initRound ["Pod"] [("Pod", [("u1", podU1V1)])])
    [Msg.listing [podU2V1]]
    { phase := Phase.catchup, store := [("Pod", [("u1", podU1V1), ("u2", podU2V1)])],
      newUids := [("Pod", ["u2"])], listCnt := 1, exitCnt := 0, dirty := true,
      callbacks := [] }
    "Pod" "u1" (by decide) (by decide) (by decide)

/-- Claim C3: the spec says a steady-state Added/Modified event whose uid
is absent (or whose resourceVersion differs) stores the record and then
invokes the callback, and processing never crashes — in particular an
Added event for a uid not yet in the store inserts it.  The code violates
the absent-uid case: `oldResource, _ := w.store[rt][uid]` (watch.go:147)
yields the nil `k8s.Resource` interface on a map miss, and
`oldResource.GetMetadata()` (watch.go:148) is then a method call on a nil
interface — a runtime panic (modelled as `none`).  The catch-up path
guards exactly this case with `existed` (watch.go:102); the steady-state
path does not. -/
theorem c3_added_event_absent_uid_panics :
    handleEvent [("Pod", [])] ⟨EventAdded, podU1V1⟩ = none := by decide

/-- Claim C4: the spec says a steady-state Added/Modified event whose
resourceVersion equals the resourceVersion of the record already stored
for the same kind and uid causes no store mutation and no callback.  The
code violates this: watch.go:148 compares the metadata ResourceVersion
fields directly (`oldResource.GetMetadata().ResourceVersion !=
newResource.GetMetadata().ResourceVersion`).  In github.com/ericchiang/k8s
the metadata is proto2-generated, so ResourceVersion is a `*string` and
the comparison is pointer equality — unlike the catch-up path, which
compares `GetResourceVersion()` values at watch.go:102.  A steady-state
event arrives in a freshly decoded resource whose metadata strings are
new allocations, so even when the version tokens agree the pointers
differ, and the handler replaces the record and invokes the callback.
The theorem evaluates the failing input: the store holds u1 with version
token v1 (allocation 1); a Modified event carries the same token v1 in a
fresh allocation (2); the version values agree (first conjunct), yet the
store mutates and the callback fires (second conjunct). -/
theorem c4_version_gating_broken :
    getResourceVersion podU1V1 = getResourceVersion podU1V1fresh ∧
    handleEvent [("Pod", [("u1", podU1V1)])] ⟨EventModified, podU1V1fresh⟩ =
      some ([("Pod", [("u1", podU1V1fresh)])], true) := by decide

/-- Counterexample to claim C5 as stated: in a first round the store is
empty and the round's (empty) listings contain exactly the records
already in the store, yet catch-up does not leave the store unchanged —
the setup (watch.go:88-91) creates the registered kind's empty bucket
(and sets `dirty`), so the store mutates from `[]` to `[("Pod", [])]`. -/
theorem c5_counterexample_first_round :
    runMsgs 1 (initRound ["Pod"] []) [Msg.listing []] =
      StepRes.ok
        { phase := Phase.catchup, store := [("Pod", [])], newUids := [("Pod", [])],
          listCnt := 1, exitCnt := 0, dirty := true, callbacks := [] } ∧
    ([("Pod", [])] : StoreM) ≠ ([] : StoreM) := by decide

/-- Claim C5 (amended): for every round in which every registered kind
already has a store entry and whose initial listings contain exactly the
records already in the store (each listed item is of a registered kind
and matches the stored uid and resourceVersion, and every stored record
appears in some listing), the catch-up processing leaves the store
unchanged and does not invoke the callback. -/
theorem c5_idempotent_relist (watches : List Kind) (store0 : StoreM) (msgs : List Msg)
    (h1 : ∀ k ∈ watches, (lookupA store0 k).isSome = true)
    (h2 : ∀ m ∈ msgs, ∃ items, m = Msg.listing items ∧ ∀ r ∈ items, r.kind ∈ watches ∧
      ∃ old, lookup2 store0 r.kind r.uid = some old ∧
        getResourceVersion old = getResourceVersion r)
    (_h3 : ∀ k uid old, lookup2 store0 k uid = some old → ∃ m ∈ msgs, ∃ items,
      m = Msg.listing items ∧ ∃ r ∈ items, r.kind = k ∧ r.uid = uid ∧
        getResourceVersion r = getResourceVersion old) :
    ∃ st', runMsgs watches.length (initRound watches store0) msgs = StepRes.ok st' ∧
      st'.store = store0 ∧ st'.callbacks = [] := by
  obtain ⟨hs, hc, hp, hall⟩ := initRound_inv watches store0 h1
  exact runMsgs_noop watches store0 watches.length msgs (initRound watches store0)
    hs hc hp hall h2

/-- Witness for C5 (amended): relisting the single stored record leaves
the store unchanged with no callback. -/
theorem c5_idempotent_relist_witness :
    ∃ st', runMsgs 1 (initRound ["Pod"] [("Pod", [("u1", podU1V1)])])
        [Msg.listing [podU1V1]] = StepRes.ok st' ∧
      st'.store = [("Pod", [("u1", podU1V1)])] ∧ st'.callbacks = [] :=
  c5_idempotent_relist ["Pod"] [("Pod", [("u1", podU1V1)])] [Msg.listing [podU1V1]]
    (by decide)
    (by
      intro m hm
      rw [List.mem_singleton] at hm
      subst hm
      refine ⟨[podU1V1], rfl, ?_⟩
      intro r hr
      rw [List.mem_singleton] at hr
      subst hr
      exact ⟨by decide, podU1V1, by decide, rfl⟩)
    (by
      intro k uid old h
      by_cases hk : ("Pod" : String) = k
      · subst hk
        by_cases hu : ("u1" : String) = uid
        · subst hu
          have hold : old = podU1V1 := by
            have : lookup2 [("Pod", [("u1", podU1V1)])] "Pod" "u1" = some podU1V1 := by decide
            rw [this] at h
            exact (Option.some.inj h).symm
          subst hold
          exact ⟨Msg.listing [podU1V1], List.mem_singleton_self _, [podU1V1], rfl,
            podU1V1, List.mem_singleton_self _, rfl, rfl, rfl⟩
        · simp [lookup2, lookupA, hu] at h
      · simp [lookup2, lookupA, hk] at h)

/-- Claim C6: the spec says canceling the run context propagates to every
session and the coordinator waits for every session to exit, so `Run`
returns with no leaked tasks and no sender blocking past the round.  The
code violates this: the coordinator never leaves the catch-up select loop
(the `break` at watch.go:110 exits only the `select`), so it never
receives from `watchCh`; after any schedule of deliverable messages a
watch event still has no receiver (`blocked`).  A session blocked in the
plain channel send `watchCh <- watchEvent{...}` (watch.go:281) is not
released by context cancellation, never reaches its `ctx.Err()` check,
never signals `exitCh` — so `exitCnt` never reaches `len(w.watches)` and
`run`/`Run` never return: the session goroutine leaks. -/
theorem c6_watch_events_never_received (watches : List Kind) (store0 : StoreM)
    (msgs : List Msg) (st : CoordState) (ev : watchEvent)
    (h : runMsgs watches.length (initRound watches store0) msgs = StepRes.ok st) :
    deliver watches.length st (Msg.event ev) = StepRes.blocked := by
  have hph : (initRound watches store0).phase = Phase.catchup := by
    unfold initRound
    exact foldl_initStep_phase _ _
  exact deliver_event_blocked _ _ _ (runMsgs_not_steady _ _ _ _ h (by simp [hph]))

/-- Witness for C6: at the very start of a round a watch event already has
no receiver. -/
theorem c6_watch_events_never_received_witness :
    deliver 1 (initRound ["Pod"] []) (Msg.event ⟨EventAdded, podU1V1⟩) =
      StepRes.blocked :=
  c6_watch_events_never_received ["Pod"] [] [] (initRound ["Pod"] [])
    ⟨EventAdded, podU1V1⟩ rfl

/-- Claim C7: the spec says a malformed resource-list descriptor (not a
pointer, no Items field, Items not a slice, item type not a pointer
implementing the resource contract) fails at registration time with a
configuration error.  The code violates this for every pointer
descriptor: after the pointer-kind check, `listType.FieldByName("Items")`
(watch.go:217) is called on the pointer type itself rather than on
`listType.Elem()`, and `reflect.Type.FieldByName` panics for any
non-struct kind — so a pointer descriptor with no Items field (malformed)
dies with reflect's own panic, never with the intended configuration
error, and well-formed descriptors fail the same way (first conjunct).
Only the not-a-pointer case produces its configuration panic (second
conjunct). -/
theorem c7_registration_reflect_panic :
    (∀ (impl : RType → Bool) (t : RType),
      newWatch impl (RType.ptr t) = NewWatchRes.reflectPanic) ∧
    (∀ (impl : RType → Bool) (s : String),
      newWatch impl (RType.base s) = NewWatchRes.configPanic ConfigCheck.listNotPtr) :=
  ⟨fun _ _ => rfl, fun _ _ => rfl⟩

/-- Witness for C7: a pointer to a struct with no Items field — malformed
per the claim — hits the reflect panic, not a configuration error. -/
theorem c7_registration_reflect_panic_witness :
    newWatch (fun _ => true) (RType.ptr (RType.strukt [])) = NewWatchRes.reflectPanic :=
  c7_registration_reflect_panic.1 (fun _ => true) (RType.strukt [])

/-- Claim C8: `Run` returns only after the supplied context is canceled,
its result is the context's error, and it never returns a nil error.
Confirmed: `Run` (watch.go:56-63) returns exactly when an iteration
observes a non-nil `ctx.Err()`, and the value returned is that first
non-nil observation (so it is never nil). -/
theorem c8_run_returns_ctx_error (obs : List (Option CtxErr)) (e : Option CtxErr) :
    Run obs = RunOutcome.returned e ↔ ∃ e', e = some e' ∧ obs.findSome? id = some e' := by
  induction obs with
  | nil => simp [Run, List.findSome?]
  | cons o rest ih =>
    cases o with
    | some e'' =>
      simp only [Run, List.findSome?, id_eq, RunOutcome.returned.injEq, Option.some.injEq]
      constructor
      · intro h
        exact ⟨e'', h.symm, rfl⟩
      · rintro ⟨e', rfl, rfl⟩
        rfl
    | none =>
      simp only [Run, List.findSome?, id_eq]
      exact ih

/-- Witness for C8: a run that sees a live context once and then the
canceled context returns the cancellation error. -/
theorem c8_run_returns_ctx_error_witness :
    Run [none, some CtxErr.canceled] = RunOutcome.returned (some CtxErr.canceled) ↔
      ∃ e', (some CtxErr.canceled : Option CtxErr) = some e' ∧
        ([none, some CtxErr.canceled] : List (Option CtxErr)).findSome? id = some e' :=
  c8_run_returns_ctx_error [none, some CtxErr.canceled] (some CtxErr.canceled)

/-- Claim C9: `Snapshot.List(kind)` returns a (fresh) copy of the records
currently stored for that kind, and an empty sequence when the kind is
unknown.  Confirmed on `(mapStore).List` (watch.go:30-37): on a
well-formed store the returned sequence holds exactly the records stored
for that kind (each reachable under its own uid), and an unknown kind —
whose `store[rt]` is the nil map — yields the empty sequence.  (Freshness
is by construction: the Go code allocates a new slice with `make` and
`append`s into it; the model returns a pure value.) -/
theorem c9_snapshot_list (store : StoreM) (k : Kind) (hw : WFStore store) :
    (∀ r, r ∈ mapStoreList store k ↔ lookup2 store k r.uid = some r) ∧
    (lookupA store k = none → mapStoreList store k = []) := by
  constructor
  · intro r
    cases hb : lookupA store k with
    | none => simp [mapStoreList, lookup2, hb]
    | some bucket =>
      obtain ⟨hbn, hbk⟩ := WFStore_bucket store k bucket hw hb
      rw [lookup2_some _ _ _ _ hb]
      simp only [mapStoreList, hb, Option.getD_some]
      constructor
      · intro hr
        rcases List.mem_map.mp hr with ⟨q, hq, hq2⟩
        have huid := (hbk q hq).2
        have hl : lookupA bucket q.1 = some q.2 :=
          lookupA_of_mem_nodup bucket q.1 q.2 hbn (by simpa using hq)
        rw [← hq2, huid]
        exact hl
      · intro hr
        exact List.mem_map.mpr ⟨(r.uid, r), lookupA_mem bucket r.uid r hr, rfl⟩
  · intro hb
    simp [mapStoreList, hb]

/-- Witness for C9: the single stored record is listed, and listing it
round-trips through the uid-indexed lookup. -/
theorem c9_snapshot_list_witness :
    WFStore [("Pod", [("u1", podU1V1)])] ∧
      (podU1V1 ∈ mapStoreList [("Pod", [("u1", podU1V1)])] "Pod" ↔
        lookup2 [("Pod", [("u1", podU1V1)])] "Pod" podU1V1.uid = some podU1V1) :=
  ⟨by decide, (c9_snapshot_list [("Pod", [("u1", podU1V1)])] "Pod" (by decide)).1 podU1V1⟩

/-- Claim C10: every store mutation preserves well-formedness — every
record held in the store is indexed under its own dynamic resource type
and its own metadata uid (and the two map levels keep unique keys).
First conjunct: every coordinator step (catch-up insert/replace on a
listing, exit bookkeeping, steady-state event handling) preserves
well-formedness.  Second: the omission-deletion pass preserves it.
Third: the steady-state event switch preserves it in isolation. -/
theorem c10_store_wf_preserved :
    (∀ (n : Nat) (st : CoordState) (m : Msg) (st' : CoordState),
      WFStore st.store → deliver n st m = StepRes.ok st' → WFStore st'.store) ∧
    (∀ (s : StoreM) (nu : List (Kind × List String)),
      WFStore s → WFStore (omissionDelete s nu).1) ∧
    (∀ (s : StoreM) (ev : watchEvent) (s' : StoreM) (nb : Bool),
      WFStore s → handleEvent s ev = some (s', nb) → WFStore s') :=
  ⟨deliver_WF, omissionDelete_WF, handleEvent_WF⟩

/-- Witness for C10: deleting the only record by omission keeps the store
well-formed. -/
theorem c10_store_wf_preserved_witness :
    WFStore ((omissionDelete [("Pod", [("u1", podU1V1)])] [("Pod", [])]).1) :=
  c10_store_wf_preserved.2.1 [("Pod", [("u1", podU1V1)])] [("Pod", [])] (by decide)

end K8sutil
